import Mathlib

/-!
Verification of the constrained-generation prior engine of
deep-symbolic-optimization (`dsr/prior.py` and `dsr/gp/symbolic_math.py`).

Masks are modelled with cells in `WithBot ℤ`: the source uses float32 cells
that are always `0.0` or `-np.inf`, and numpy addition on that value set
(`0 + 0 = 0`, `x + (-inf) = -inf`) coincides with `WithBot` addition on
`{0, ⊥}`.  Batch rows and token indices are `Nat`; a mask is a function
`Nat → Nat → WithBot ℤ` (row, token).  Per-row batch inputs (`dangling`,
adjusted `parent`) are functions `Nat → Int`, matching the numpy int arrays.
-/

set_option autoImplicit false

namespace DSR

/-- Modelled from the spec: the `Library` class (`dsr/library.py`) is not
under `src/`; per the spec's data model it is an index-addressable
vocabulary of `L` tokens, with an arity per token id, the `parent_adjust`
table mapping token ids to compact parent indices, and the inverse-token
mapping (parent id, child id). -/
structure Library where
  L : Nat
  arity : Nat → Nat
  parent_adjust : Nat → Int
  inverse_tokens : List (Nat × Nat)

/-- Modelled from the spec: `library.terminal_tokens`, the derived cache
of arity-0 token ids. -/
def Library.terminal_tokens (lib : Library) : List Nat :=
  (List.range lib.L).filter (fun t => lib.arity t = 0)

/-- Modelled from the spec: `library.unary_tokens`, the derived cache of
arity-1 token ids. -/
def Library.unary_tokens (lib : Library) : List Nat :=
  (List.range lib.L).filter (fun t => lib.arity t = 1)

/-- Modelled from the spec: `library.binary_tokens`, the derived cache of
arity-2 token ids. -/
def Library.binary_tokens (lib : Library) : List Nat :=
  (List.range lib.L).filter (fun t => lib.arity t = 2)

/-- `Constraint.make_constraint(mask, tokens)`: a (batch × L) prior that is
`-inf` at `(r, t)` for each `t ∈ tokens` in each row `r` with `mask[r]`,
and `0` everywhere else. -/
def make_constraint (mask : Nat → Bool) (tokens : List Nat) :
    Nat → Nat → WithBot ℤ :=
  fun r t => if mask r && tokens.contains t then ⊥ else 0

/-- `Prior.initial_prior`: the base initial mask, all zeros. -/
def Prior_initial_prior (_lib : Library) : Nat → WithBot ℤ :=
  fun _ => 0

/-- `LengthConstraint.initial_prior`: the base initial mask with `-inf`
written at every terminal-token index. -/
def LengthConstraint_initial (lib : Library) : Nat → WithBot ℤ :=
  fun t => if lib.terminal_tokens.contains t then ⊥ else Prior_initial_prior lib t

/-- `LengthConstraint.__call__(actions, parent, sibling, dangling)` where
`alen = actions.shape[1]` and `i = alen - 1` (Python int arithmetic, so the
index is computed in `ℤ`).  `min_`/`max_` are the configured bounds. -/
def LengthConstraint_call (lib : Library) (min_ max_ : Option Nat)
    (alen : Nat) (dangling : Nat → Int) : Nat → Nat → WithBot ℤ :=
  let i : Int := (alen : Int) - 1
  let prior0 : Nat → Nat → WithBot ℤ := fun _ _ => 0
  let prior1 : Nat → Nat → WithBot ℤ :=
    match max_ with
    | none => prior0
    | some M =>
      if (M : Int) / 2 ≤ i + 2 then
        let remaining : Int := (M : Int) - (i + 1)
        fun r t =>
          prior0 r t
            + make_constraint (fun s => decide (remaining - 1 ≤ dangling s))
                lib.binary_tokens r t
            + make_constraint (fun s => decide (dangling s = remaining))
                lib.unary_tokens r t
      else prior0
  match min_ with
  | none => prior1
  | some m =>
    if i + 2 < (m : Int) then
      fun r t =>
        prior1 r t
          + make_constraint (fun s => decide (dangling s = 1))
              lib.terminal_tokens r t
    else prior1

/-- The loop body of `ChildConstraint.__call__`: starting from `acc`, add
`make_constraint(parent == adj_p, [c])` for each pair `(c, adj_p)` of the
zipped (children, adjusted parents) list, in order. -/
def child_fold (parentB : Nat → Int) (acc : Nat → Nat → WithBot ℤ) :
    List (Nat × Int) → Nat → Nat → WithBot ℤ
  | [] => acc
  | (c, adj_p) :: rest =>
    child_fold parentB
      (fun r t =>
        acc r t + make_constraint (fun s => decide (parentB s = adj_p)) [c] r t)
      rest

/-- `ChildConstraint.__call__(actions, parent, sibling, dangling)`:
`parentB` is the batch of adjusted current-parent indices. -/
def ChildConstraint_call (lib : Library) (children parents : List Nat)
    (parentB : Nat → Int) : Nat → Nat → WithBot ℤ :=
  child_fold parentB (fun _ _ => 0)
    (children.zip (parents.map lib.parent_adjust))

/-- The truth value of the expression asserted by `ChildConstraint.__init__`:
the Python code asserts the *list* `[p.arity > 0 for p in parents]`, whose
truthiness is just non-emptiness of `parents`. -/
def ChildConstraint_init_assert (lib : Library) (parents : List Nat) : Bool :=
  !(parents.map (fun p => decide (0 < lib.arity p))).isEmpty

/-- Whether a list of per-token arity-positivity flags is all-true: the
check `ChildConstraint.__init__`'s assert message says it performs. -/
def all_parents_nonterminal (lib : Library) (parents : List Nat) : Bool :=
  (parents.map (fun p => decide (0 < lib.arity p))).all id

/-- The Python exception kinds raised by constraint calls. -/
inductive PyError where
  | notImplemented
  deriving DecidableEq

/-- The constraint classes of `prior.py`, with their configurations.
`inverseUnary` carries no configuration: it reads the Library's
`inverse_tokens` mapping (keys become parents, values become children). -/
inductive ConstraintSpec where
  | length (min_ max_ : Option Nat)
  | child (children parents : List Nat)
  | inverseUnary
  | descendant (descendants ancestors : List Nat)
  | rep (tokens : List Nat) (min_ max_ : Option Nat)
  deriving DecidableEq

/-- A constraint's `__call__`: `LengthConstraint` and `ChildConstraint`
(and its `InverseUnaryConstraint` specialisation) return a mask;
`DescendantConstraint.__call__` and `RepeatConstraint.__call__` raise
`NotImplementedError`. -/
def ConstraintSpec.eval (lib : Library) (c : ConstraintSpec) (alen : Nat)
    (parentB dangling : Nat → Int) : Except PyError (Nat → Nat → WithBot ℤ) :=
  match c with
  | .length mn mx => .ok (LengthConstraint_call lib mn mx alen dangling)
  | .child ch pa => .ok (ChildConstraint_call lib ch pa parentB)
  | .inverseUnary =>
    .ok (ChildConstraint_call lib (lib.inverse_tokens.map Prod.snd)
      (lib.inverse_tokens.map Prod.fst) parentB)
  | .descendant _ _ => .error .notImplemented
  | .rep _ _ _ => .error .notImplemented

/-- A constraint's `initial_prior`: only `LengthConstraint` overrides the
all-zeros base implementation. -/
def ConstraintSpec.initial (lib : Library) : ConstraintSpec → Nat → WithBot ℤ
  | .length _ _ => LengthConstraint_initial lib
  | .child _ _ => Prior_initial_prior lib
  | .inverseUnary => Prior_initial_prior lib
  | .descendant _ _ => Prior_initial_prior lib
  | .rep _ _ _ => Prior_initial_prior lib

/-- `JointPrior.__call__`: evaluate every constraint (an exception from any
one propagates), then return `sum(ind_priors) + zero_prior` elementwise. -/
def JointPrior_call (lib : Library) (cs : List ConstraintSpec) (alen : Nat)
    (parentB dangling : Nat → Int) : Except PyError (Nat → Nat → WithBot ℤ) := do
  let ms ← cs.mapM (fun c => c.eval lib alen parentB dangling)
  return fun r t => (ms.map (fun m => m r t)).sum + 0

/-- `JointPrior.initial_prior`: the elementwise sum of every constraint's
`initial_prior`, starting from zeros. -/
def JointPrior_initial (lib : Library) (cs : List ConstraintSpec) :
    Nat → WithBot ℤ :=
  fun t => (cs.map (fun c => c.initial lib t)).sum

/-! Embedding of `dsr/gp/symbolic_math.py` (the reactive validator). -/

/-- `TRIG_TOKENS` from `symbolic_math.py`. -/
def TRIG_TOKENS : List String := ["sin", "cos", "tan", "csc", "sec", "cot"]

/-- Modelled from the spec: `UNARY_TOKENS` is imported from `dsr.functions`,
which is not under `src/`; the spec describes it as the names of the
unary (arity-1) operator tokens of the function registry. -/
def UNARY_TOKENS : List String :=
  ["sin", "cos", "tan", "exp", "log", "sqrt", "n2", "neg", "abs", "inv",
   "tanh", "arcsin", "arccos", "arctan"]

/-- Modelled from the spec: `BINARY_TOKENS` is imported from `dsr.functions`,
which is not under `src/`; the spec describes it as the names of the
binary (arity-2) operator tokens of the function registry. -/
def BINARY_TOKENS : List String := ["add", "sub", "mul", "div"]

/-- `INVERSE_TOKENS` from `symbolic_math.py`: the base pairs, the
trig/arc-trig pairs, and the reverse of every pair, merged as the Python
dict updates leave them. -/
def INVERSE_TOKENS : List (String × String) :=
  [("exp", "log"), ("neg", "neg"), ("inv", "inv"), ("sqrt", "n2"),
   ("sin", "arcsin"), ("cos", "arccos"), ("tan", "arctan"),
   ("csc", "arccsc"), ("sec", "arcsec"), ("cot", "arccot"),
   ("log", "exp"), ("n2", "sqrt"),
   ("arcsin", "sin"), ("arccos", "cos"), ("arctan", "tan"),
   ("arccsc", "csc"), ("arcsec", "sec"), ("arccot", "cot")]

/-- `check_inv(names)`: true iff two sequential tokens are registered
inverse operators. -/
def check_inv : List String → Bool
  | [] => false
  | [_] => false
  | a :: b :: rest =>
    (INVERSE_TOKENS.lookup a == some b) || check_inv (b :: rest)

/-- The loop of `check_trig(names)`, carrying the `trig_descendant` flag
and the `trig_dangling` counter through the scan. -/
def check_trig_aux : Bool → Int → List String → Bool
  | _, _, [] => false
  | td, d, name :: rest =>
    if name ∈ TRIG_TOKENS then
      if td then true else check_trig_aux true 1 rest
    else if td then
      let d' : Int :=
        if name ∈ BINARY_TOKENS then d + 1
        else if name ∈ UNARY_TOKENS then d
        else d - 1
      if d' = 0 then check_trig_aux false d' rest
      else check_trig_aux td d' rest
    else check_trig_aux td d rest

/-- `check_trig(names)`: true iff a descendant of a trig operator is
another trig operator. -/
def check_trig (names : List String) : Bool :=
  check_trig_aux false 1 names

/-- The spec's description of the open-subtree scan, as a step function on
the (nesting flag, open counter) state: entering a trig token seeds the
counter at 1 and sets the flag; while the flag holds, a binary token
increments, a unary token leaves, and any other token decrements the
counter, and the flag clears when the counter reaches 0. -/
def trig_step : Bool × Int → String → Bool × Int :=
  fun s name =>
    if name ∈ TRIG_TOKENS then (true, 1)
    else if s.1 then
      let d' : Int :=
        if name ∈ BINARY_TOKENS then s.2 + 1
        else if name ∈ UNARY_TOKENS then s.2
        else s.2 - 1
      (d' ≠ 0, d')
    else s

/-- The spec-side violation predicate: some position holds a trig token
while the flag derived from scanning the strict prefix is active. -/
def spec_trig_violation (names : List String) : Prop :=
  ∃ k, ∃ h : k < names.length,
    (((names.take k).foldl trig_step (false, 1)).1 = true
      ∧ names.get ⟨k, h⟩ ∈ TRIG_TOKENS)

/-- An individual, abstracted to what the checks read: the depth-first
node-name sequence (whose length is the tree length) and the tree height. -/
structure Individual where
  names : List String
  height : Nat
  deriving DecidableEq

/-- The validity test applied by the `checkConstraint` decorator: length
at most `max_length`, length at least `min_length`, height at most
`max_depth`, no adjacent inverse pair, no nested trig operator. -/
def is_valid (max_length min_length max_depth : Nat) (ind : Individual) : Bool :=
  !(decide (max_length < ind.names.length))
    && !(decide (ind.names.length < min_length))
    && !(decide (max_depth < ind.height))
    && !(check_inv ind.names)
    && !(check_trig ind.names)

/-- The replacement loop of the `checkConstraint` wrapper: each invalid
individual at position `i` is replaced by `keep.getD (choice i)`, the
model of `random.choice(keep_inds)`. -/
def replace_invalid (max_length min_length max_depth : Nat)
    (keep : List Individual) (choice : Nat → Nat) :
    Nat → List Individual → List Individual
  | _, [] => []
  | i, ind :: rest =>
    (if is_valid max_length min_length max_depth ind then ind
     else keep.getD (choice i) ⟨[], 0⟩)
      :: replace_invalid max_length min_length max_depth keep choice (i + 1) rest

/-- `checkConstraint(max_length, min_length, max_depth)` applied to an
operator `func` and its input individuals `args`: deep copies of the
inputs are taken before the operator runs (value semantics here), the
operator produces `new_inds`, and every invalid result is replaced by a
randomly chosen kept input. -/
def checkConstraint (max_length min_length max_depth : Nat)
    (choice : Nat → Nat) (func : List Individual → List Individual)
    (args : List Individual) : List Individual :=
  let keep_inds := args
  let new_inds := func args
  replace_invalid max_length min_length max_depth keep_inds choice 0 new_inds

/-! Concrete libraries used for scenario instances. -/

/-- Scenario A/B library: `const` (id 0, terminal), `x1` (id 1, terminal),
`add` (id 2, binary), `sin` (id 3, unary). -/
def scenarioLib : Library where
  L := 4
  arity := fun t => if t = 2 then 2 else if t = 3 then 1 else 0
  parent_adjust := fun t => if t = 2 then 0 else if t = 3 then 1 else -1
  inverse_tokens := []

/-- Scenario C library: `exp` (id 0, unary), `log` (id 1, unary),
`x1` (id 2, terminal), `add` (id 3, binary); `exp` and `log` are inverses. -/
def invLib : Library where
  L := 4
  arity := fun t => if t = 3 then 2 else if t = 0 ∨ t = 1 then 1 else 0
  parent_adjust := fun t =>
    if t = 0 then 0 else if t = 1 then 1 else if t = 3 then 2 else -1
  inverse_tokens := [(0, 1), (1, 0)]

/-! Helper lemmas. -/

lemma contains_iff_mem (l : List Nat) (t : Nat) : l.contains t = true ↔ t ∈ l := by
  induction l with
  | nil => simp
  | cons a l ih => simp [List.contains_cons] at *

lemma mem_terminal_tokens (lib : Library) (t : Nat) :
    t ∈ lib.terminal_tokens ↔ t < lib.L ∧ lib.arity t = 0 := by
  simp [Library.terminal_tokens, List.mem_filter, List.mem_range]

lemma mem_unary_tokens (lib : Library) (t : Nat) :
    t ∈ lib.unary_tokens ↔ t < lib.L ∧ lib.arity t = 1 := by
  simp [Library.unary_tokens, List.mem_filter, List.mem_range]

lemma mem_binary_tokens (lib : Library) (t : Nat) :
    t ∈ lib.binary_tokens ↔ t < lib.L ∧ lib.arity t = 2 := by
  simp [Library.binary_tokens, List.mem_filter, List.mem_range]

/-- Closed form for a single cell of `LengthConstraint_call`. -/
lemma length_call_cell (lib : Library) (min_ max_ : Option Nat) (alen : Nat)
    (dangling : Nat → Int) (r t : Nat) :
    LengthConstraint_call lib min_ max_ alen dangling r t
      = (match max_ with
         | none => (0 : WithBot ℤ)
         | some M =>
           if (M : Int) / 2 ≤ (alen : Int) - 1 + 2 then
             (if decide ((M : Int) - ((alen : Int) - 1 + 1) - 1 ≤ dangling r)
                 && lib.binary_tokens.contains t then ⊥ else 0)
               + (if decide (dangling r = (M : Int) - ((alen : Int) - 1 + 1))
                   && lib.unary_tokens.contains t then ⊥ else 0)
           else 0)
        + (match min_ with
           | none => (0 : WithBot ℤ)
           | some m =>
             if (alen : Int) - 1 + 2 < (m : Int) then
               (if decide (dangling r = 1)
                   && lib.terminal_tokens.contains t then ⊥ else 0)
             else 0) := by
  cases min_ with
  | none =>
    cases max_ with
    | none => simp [LengthConstraint_call]
    | some M =>
      by_cases hM : (M : Int) / 2 ≤ (alen : Int) - 1 + 2
      · simp only [LengthConstraint_call, make_constraint, if_pos hM,
          add_zero, zero_add]
      · simp only [LengthConstraint_call, make_constraint, if_neg hM,
          add_zero, zero_add]
  | some m =>
    by_cases hm : (alen : Int) - 1 + 2 < (m : Int)
    · cases max_ with
      | none =>
        simp only [LengthConstraint_call, make_constraint, if_pos hm,
          add_zero, zero_add]
      | some M =>
        by_cases hM : (M : Int) / 2 ≤ (alen : Int) - 1 + 2
        · simp only [LengthConstraint_call, make_constraint, if_pos hm,
            if_pos hM, add_zero, zero_add]
        · simp only [LengthConstraint_call, make_constraint, if_pos hm,
            if_neg hM, add_zero, zero_add]
    · cases max_ with
      | none =>
        simp only [LengthConstraint_call, make_constraint, if_neg hm,
          add_zero, zero_add]
      | some M =>
        by_cases hM : (M : Int) / 2 ≤ (alen : Int) - 1 + 2
        · simp only [LengthConstraint_call, make_constraint, if_pos hM,
            if_neg hm, add_zero, zero_add]
        · simp only [LengthConstraint_call, make_constraint, if_neg hM,
            if_neg hm, add_zero, zero_add]

/-- C1: with `min_length` set and the actions at current length `i+1`, the
`LengthConstraint` step mask is `-inf` at a terminal token of the Library
in exactly the rows with `dangling == 1` at steps with `(i+2) < min_length`,
and `0` at terminal positions otherwise. -/
theorem C1_min_length_forbids_terminals (lib : Library) (m : Nat)
    (max_ : Option Nat) (i : Nat) (dangling : Nat → Int) (r t : Nat)
    (ht : t ∈ lib.terminal_tokens) :
    LengthConstraint_call lib (some m) max_ (i + 1) dangling r t
      = if i + 2 < m ∧ dangling r = 1 then ⊥ else 0 := by
  have h0 : lib.arity t = 0 := ((mem_terminal_tokens lib t).1 ht).2
  have hb : lib.binary_tokens.contains t = false := by
    rw [Bool.eq_false_iff]
    intro hc
    have := ((mem_binary_tokens lib t).1 ((contains_iff_mem _ _).1 hc)).2
    omega
  have hu : lib.unary_tokens.contains t = false := by
    rw [Bool.eq_false_iff]
    intro hc
    have := ((mem_unary_tokens lib t).1 ((contains_iff_mem _ _).1 hc)).2
    omega
  have htc : lib.terminal_tokens.contains t = true := (contains_iff_mem _ _).2 ht
  rw [length_call_cell]
  cases max_ with
  | none =>
    simp only [hb, hu, htc, Bool.and_false, Bool.and_true, decide_eq_true_eq,
      Bool.false_eq_true, if_false, ite_self, zero_add, add_zero]
    split_ifs <;> first | rfl | omega
  | some M =>
    simp only [hb, hu, htc, Bool.and_false, Bool.and_true, decide_eq_true_eq,
      Bool.false_eq_true, if_false, ite_self, zero_add, add_zero]
    split_ifs <;> first | rfl | omega

/-- C1 witness: Scenario B, `min_length = 4`, after two tokens (`i = 1`),
`dangling = 1`: the terminal token `const` (id 0) of `scenarioLib` is
forbidden. -/
theorem C1_min_length_forbids_terminals_witness :
    LengthConstraint_call scenarioLib (some 4) none (1 + 1) (fun _ => 1) 0 0
      = if 1 + 2 < 4 ∧ (fun _ => (1 : Int)) 0 = 1 then ⊥ else 0 :=
  C1_min_length_forbids_terminals scenarioLib 4 none 1 (fun _ => 1) 0 0
    (by decide)

/-- C2: with `max_length = M` set and the actions at current length `i+1`
(`remaining = M - (i+1)`), the step mask is `-inf` at a binary token in
exactly the rows with `dangling ≥ remaining - 1`, and at a unary token in
exactly the rows with `dangling == remaining`, at steps with
`(i+2) ≥ M // 2`; at steps with `(i+2) < M // 2` the rule contributes `0`
everywhere. -/
theorem C2_max_length_forbids_binary_unary (lib : Library)
    (min_ : Option Nat) (M : Nat) (i : Nat) (dangling : Nat → Int) (r t : Nat) :
    (t ∈ lib.binary_tokens →
      LengthConstraint_call lib min_ (some M) (i + 1) dangling r t
        = if M / 2 ≤ i + 2 ∧ (M : Int) - (i + 1) - 1 ≤ dangling r then ⊥
          else 0)
    ∧ (t ∈ lib.unary_tokens →
      LengthConstraint_call lib min_ (some M) (i + 1) dangling r t
        = if M / 2 ≤ i + 2 ∧ dangling r = (M : Int) - (i + 1) then ⊥ else 0)
    ∧ (i + 2 < M / 2 →
      ∀ r' t', LengthConstraint_call lib none (some M) (i + 1) dangling r' t'
        = 0) := by
  refine ⟨fun htb => ?_, fun htu => ?_, fun hlt r' t' => ?_⟩
  · have h2 : lib.arity t = 2 := ((mem_binary_tokens lib t).1 htb).2
    have hbc : lib.binary_tokens.contains t = true :=
      (contains_iff_mem _ _).2 htb
    have hu : lib.unary_tokens.contains t = false := by
      rw [Bool.eq_false_iff]
      intro hc
      have := ((mem_unary_tokens lib t).1 ((contains_iff_mem _ _).1 hc)).2
      omega
    have hterm : lib.terminal_tokens.contains t = false := by
      rw [Bool.eq_false_iff]
      intro hc
      have := ((mem_terminal_tokens lib t).1 ((contains_iff_mem _ _).1 hc)).2
      omega
    rw [length_call_cell]
    cases min_ with
    | none =>
      simp only [hbc, hu, hterm, Bool.and_false, Bool.and_true,
        decide_eq_true_eq, Bool.false_eq_true, if_false, ite_self, zero_add,
        add_zero]
      split_ifs <;> first | rfl | omega
    | some m =>
      simp only [hbc, hu, hterm, Bool.and_false, Bool.and_true,
        decide_eq_true_eq, Bool.false_eq_true, if_false, ite_self, zero_add,
        add_zero]
      split_ifs <;> first | rfl | omega
  · have h1 : lib.arity t = 1 := ((mem_unary_tokens lib t).1 htu).2
    have huc : lib.unary_tokens.contains t = true :=
      (contains_iff_mem _ _).2 htu
    have hb : lib.binary_tokens.contains t = false := by
      rw [Bool.eq_false_iff]
      intro hc
      have := ((mem_binary_tokens lib t).1 ((contains_iff_mem _ _).1 hc)).2
      omega
    have hterm : lib.terminal_tokens.contains t = false := by
      rw [Bool.eq_false_iff]
      intro hc
      have := ((mem_terminal_tokens lib t).1 ((contains_iff_mem _ _).1 hc)).2
      omega
    rw [length_call_cell]
    cases min_ with
    | none =>
      simp only [huc, hb, hterm, Bool.and_false, Bool.and_true,
        decide_eq_true_eq, Bool.false_eq_true, if_false, ite_self, zero_add,
        add_zero]
      split_ifs <;> first | rfl | omega
    | some m =>
      simp only [huc, hb, hterm, Bool.and_false, Bool.and_true,
        decide_eq_true_eq, Bool.false_eq_true, if_false, ite_self, zero_add,
        add_zero]
      split_ifs <;> first | rfl | omega
  · rw [length_call_cell]
    have hM : ¬ ((M : Int) / 2 ≤ ((i + 1 : Nat) : Int) - 1 + 2) := by omega
    simp only [if_neg hM, add_zero]

/-- C2 witness: `max_length = 4`, `i = 1` (`remaining = 2`), `dangling = 1`:
the binary token `add` (id 2) of `scenarioLib` is forbidden. -/
theorem C2_max_length_forbids_binary_unary_witness :
    LengthConstraint_call scenarioLib none (some 4) (1 + 1) (fun _ => 1) 0 2
      = if 4 / 2 ≤ 1 + 2 ∧ (4 : Int) - (1 + 1) - 1 ≤ (fun _ => (1 : Int)) 0
        then ⊥ else 0 :=
  (C2_max_length_forbids_binary_unary scenarioLib none 4 1 (fun _ => 1) 0
    2).1 (by decide)

/-- Unrolling of `child_fold` into a sum over the pair list. -/
lemma child_fold_apply (parentB : Nat → Int) (l : List (Nat × Int))
    (acc : Nat → Nat → WithBot ℤ) (r t : Nat) :
    child_fold parentB acc l r t
      = acc r t
        + (l.map (fun cp =>
            make_constraint (fun s => decide (parentB s = cp.2)) [cp.1] r t)).sum := by
  induction l generalizing acc with
  | nil => simp [child_fold]
  | cons cp rest ih =>
    obtain ⟨c, adj_p⟩ := cp
    rw [child_fold, ih]
    simp [add_assoc]

/-- A sum of cells that are each `0` or `⊥` is `0` or `⊥`, and is `⊥`
exactly when some summand is. -/
lemma sum_zero_or_bot (l : List (WithBot ℤ)) (h : ∀ x ∈ l, x = 0 ∨ x = ⊥) :
    (l.sum = 0 ∨ l.sum = ⊥) ∧ (l.sum = ⊥ ↔ ∃ x ∈ l, x = ⊥) := by
  induction l with
  | nil => simp
  | cons a l ih =>
    have ha := h a (List.mem_cons_self a l)
    have ihl := ih (fun x hx => h x (List.mem_cons_of_mem a hx))
    constructor
    · rcases ha with ha | ha <;> rcases ihl.1 with hl | hl <;>
        simp [ha, hl, WithBot.add_bot, WithBot.bot_add]
    · constructor
      · intro hsum
        rcases ha with ha | ha
        · rcases ihl.1 with hl | hl
          · rw [List.sum_cons, ha, hl] at hsum
            exact absurd hsum (by simp)
          · exact ⟨_, List.mem_cons_of_mem a (ihl.2.mp hl).choose_spec.1,
              (ihl.2.mp hl).choose_spec.2⟩
        · exact ⟨a, List.mem_cons_self a l, ha⟩
      · rintro ⟨x, hx, hxbot⟩
        rcases List.mem_cons.mp hx with rfl | hx
        · rw [List.sum_cons, hxbot, WithBot.bot_add]
        · rw [List.sum_cons, ihl.2.mpr ⟨x, hx, hxbot⟩, WithBot.add_bot]

/-- C3: the `ChildConstraint` step mask is `{0, -inf}`-valued, is `-inf`
at `(r, t)` exactly when some configured pair `(children[k], parents[k])`
has `children[k] = t` and the row's adjusted parent equals the adjusted
index of `parents[k]`, and `0` at every other cell; in particular, with a
single pair forbidding `log` as a child of `exp`, a row whose parent is
`exp` is forbidden exactly at `log`'s index. -/
theorem C3_child_constraint_mask (lib : Library) (children parents : List Nat)
    (parentB : Nat → Int) (r t : Nat) :
    (ChildConstraint_call lib children parents parentB r t = 0
      ∨ ChildConstraint_call lib children parents parentB r t = ⊥)
    ∧ (ChildConstraint_call lib children parents parentB r t = ⊥
        ↔ ∃ k, ∃ hk : k < children.length, ∃ hk' : k < parents.length,
            children.get ⟨k, hk⟩ = t
              ∧ parentB r = lib.parent_adjust (parents.get ⟨k, hk'⟩))
    ∧ (∀ t', ChildConstraint_call invLib [1] [0] (fun _ => 0) 0 t'
        = if t' = 1 then ⊥ else 0) := by
  have hcell : ∀ x ∈ (children.zip (parents.map lib.parent_adjust)).map
      (fun cp => make_constraint (fun s => decide (parentB s = cp.2)) [cp.1] r t),
      x = 0 ∨ x = ⊥ := by
    intro x hx
    rw [List.mem_map] at hx
    obtain ⟨cp, _, rfl⟩ := hx
    unfold make_constraint
    split_ifs <;> simp
  have hsum := sum_zero_or_bot _ hcell
  have hcall : ChildConstraint_call lib children parents parentB r t
      = ((children.zip (parents.map lib.parent_adjust)).map
          (fun cp =>
            make_constraint (fun s => decide (parentB s = cp.2)) [cp.1] r t)).sum := by
    rw [ChildConstraint_call, child_fold_apply, zero_add]
  refine ⟨?_, ?_, ?_⟩
  · rw [hcall]; exact hsum.1
  · rw [hcall, hsum.2, List.exists_mem_iff_getElem]
    constructor
    · rintro ⟨i, hi, hbot⟩
      rw [List.getElem_map, List.getElem_zip] at hbot
      have hi1 : i < children.length := by
        rw [List.length_map, List.length_zip, List.length_map] at hi
        omega
      have hi2 : i < parents.length := by
        rw [List.length_map, List.length_zip, List.length_map] at hi
        omega
      rw [make_constraint] at hbot
      split_ifs at hbot with hcond
      · rw [Bool.and_eq_true, decide_eq_true_eq] at hcond
        have hmem := (contains_iff_mem _ _).1 hcond.2
        rw [List.mem_singleton] at hmem
        have hpar := hcond.1
        rw [List.getElem_map] at hpar
        exact ⟨i, hi1, hi2,
          by simpa only [List.get_eq_getElem] using hmem.symm,
          by simpa only [List.get_eq_getElem] using hpar⟩
      · exact absurd hbot (by simp)
    · rintro ⟨k, hk, hk', hchild, hparent⟩
      have hklt : k < ((children.zip (parents.map lib.parent_adjust)).map
          (fun cp =>
            make_constraint (fun s => decide (parentB s = cp.2)) [cp.1] r t)).length := by
        rw [List.length_map, List.length_zip, List.length_map]
        omega
      refine ⟨k, hklt, ?_⟩
      rw [List.getElem_map, List.getElem_zip, make_constraint]
      rw [if_pos]
      rw [Bool.and_eq_true, decide_eq_true_eq]
      constructor
      · rw [List.getElem_map]
        simpa only [List.get_eq_getElem] using hparent
      · apply (contains_iff_mem _ _).2
        rw [List.mem_singleton]
        simpa only [List.get_eq_getElem] using hchild.symm
  · intro t'
    by_cases h1 : t' = 1 <;> simp [h1, ChildConstraint_call, child_fold,
      make_constraint, invLib]

/-- Whether a constraint's `__call__` raises `NotImplementedError`. -/
def ConstraintSpec.raises : ConstraintSpec → Bool
  | .descendant _ _ => true
  | .rep _ _ _ => true
  | _ => false

/-- Whether a constraint is a `LengthConstraint`. -/
def ConstraintSpec.isLength : ConstraintSpec → Bool
  | .length _ _ => true
  | _ => false

/-- The mask returned by a non-raising constraint's `__call__` (junk zeros
for the raising ones, never reached there). -/
def ConstraintSpec.mask (lib : Library) (c : ConstraintSpec) (alen : Nat)
    (parentB dangling : Nat → Int) : Nat → Nat → WithBot ℤ :=
  match c with
  | .length mn mx => LengthConstraint_call lib mn mx alen dangling
  | .child ch pa => ChildConstraint_call lib ch pa parentB
  | .inverseUnary =>
    ChildConstraint_call lib (lib.inverse_tokens.map Prod.snd)
      (lib.inverse_tokens.map Prod.fst) parentB
  | _ => fun _ _ => 0

lemma eval_eq_raises (lib : Library) (c : ConstraintSpec) (alen : Nat)
    (parentB dangling : Nat → Int) :
    c.eval lib alen parentB dangling
      = if c.raises then Except.error .notImplemented
        else Except.ok (c.mask lib alen parentB dangling) := by
  cases c <;> rfl

lemma mapM_eval_eq (lib : Library) (cs : List ConstraintSpec) (alen : Nat)
    (parentB dangling : Nat → Int) :
    cs.mapM (fun c => c.eval lib alen parentB dangling)
      = if cs.any ConstraintSpec.raises then Except.error .notImplemented
        else Except.ok (cs.map (fun c => c.mask lib alen parentB dangling)) := by
  induction cs with
  | nil => rfl
  | cons c cs ih =>
    rw [List.mapM_cons, eval_eq_raises, List.any_cons]
    by_cases hc : c.raises = true
    · rw [if_pos hc, hc, Bool.true_or, if_pos rfl]
      rfl
    · have hc' : c.raises = false := by revert hc; cases c.raises <;> simp
      rw [if_neg hc, hc', Bool.false_or, ih]
      by_cases hcs : cs.any ConstraintSpec.raises = true
      · rw [if_pos hcs, if_pos hcs]
        rfl
      · rw [if_neg hcs, if_neg hcs]
        rfl

lemma jointPrior_call_eq (lib : Library) (cs : List ConstraintSpec)
    (alen : Nat) (parentB dangling : Nat → Int) :
    JointPrior_call lib cs alen parentB dangling
      = if cs.any ConstraintSpec.raises then Except.error .notImplemented
        else Except.ok (fun r t =>
          ((cs.map (fun c => c.mask lib alen parentB dangling)).map
            (fun m => m r t)).sum + 0) := by
  rw [JointPrior_call, mapM_eval_eq]
  by_cases h : cs.any ConstraintSpec.raises = true
  · simp [h]
  · rw [Bool.not_eq_true] at h
    simp [h]

lemma perm_any (p : ConstraintSpec → Bool) {cs cs' : List ConstraintSpec}
    (h : cs.Perm cs') : cs.any p = cs'.any p := by
  cases hb : cs'.any p with
  | true =>
    obtain ⟨x, hx, hpx⟩ := List.any_eq_true.mp hb
    exact List.any_eq_true.mpr ⟨x, h.mem_iff.mpr hx, hpx⟩
  | false =>
    rw [Bool.eq_false_iff]
    intro hc
    obtain ⟨x, hx, hpx⟩ := List.any_eq_true.mp hc
    have hb' := List.any_eq_true.mpr ⟨x, h.mem_iff.mp hx, hpx⟩
    rw [hb] at hb'
    exact absurd hb' (by simp)

/-- C4: `JointPrior` composition is commutative: permuting the constraint
list changes neither the step mask (nor the raised exception) nor the
initial mask. -/
theorem C4_joint_prior_commutative (lib : Library)
    (cs cs' : List ConstraintSpec) (alen : Nat)
    (parentB dangling : Nat → Int) (h : cs.Perm cs') :
    JointPrior_call lib cs alen parentB dangling
      = JointPrior_call lib cs' alen parentB dangling
    ∧ JointPrior_initial lib cs = JointPrior_initial lib cs' := by
  constructor
  · rw [jointPrior_call_eq, jointPrior_call_eq,
      perm_any ConstraintSpec.raises h]
    by_cases hr : cs'.any ConstraintSpec.raises = true
    · rw [if_pos hr, if_pos hr]
    · rw [if_neg hr, if_neg hr]
      congr 1
      funext r t
      congr 1
      exact ((h.map (fun c => c.mask lib alen parentB dangling)).map
        (fun m => m r t)).sum_eq
  · funext t
    simp only [JointPrior_initial]
    exact (h.map (fun c => c.initial lib t)).sum_eq

/-- C4 witness: swapping a `LengthConstraint` and an
`InverseUnaryConstraint` yields identical step and initial masks. -/
theorem C4_joint_prior_commutative_witness :
    JointPrior_call invLib
      [ConstraintSpec.inverseUnary, ConstraintSpec.length (some 4) none] 1
      (fun _ => 0) (fun _ => 1)
      = JointPrior_call invLib
        [ConstraintSpec.length (some 4) none, ConstraintSpec.inverseUnary] 1
        (fun _ => 0) (fun _ => 1)
    ∧ JointPrior_initial invLib
        [ConstraintSpec.inverseUnary, ConstraintSpec.length (some 4) none]
      = JointPrior_initial invLib
        [ConstraintSpec.length (some 4) none, ConstraintSpec.inverseUnary] :=
  C4_joint_prior_commutative invLib _ _ 1 (fun _ => 0) (fun _ => 1)
    (List.Perm.swap _ _ [])

lemma add_zero_or_bot (a b : WithBot ℤ) (ha : a = 0 ∨ a = ⊥)
    (hb : b = 0 ∨ b = ⊥) : a + b = 0 ∨ a + b = ⊥ := by
  rcases ha with rfl | rfl <;> rcases hb with rfl | rfl <;>
    simp [WithBot.add_bot, WithBot.bot_add]

lemma length_call_zero_or_bot (lib : Library) (min_ max_ : Option Nat)
    (alen : Nat) (dangling : Nat → Int) (r t : Nat) :
    LengthConstraint_call lib min_ max_ alen dangling r t = 0
      ∨ LengthConstraint_call lib min_ max_ alen dangling r t = ⊥ := by
  rw [length_call_cell]
  apply add_zero_or_bot
  · cases max_ with
    | none => exact Or.inl rfl
    | some M =>
      dsimp only
      split_ifs <;> simp [WithBot.add_bot, WithBot.bot_add]
  · cases min_ with
    | none => exact Or.inl rfl
    | some m =>
      dsimp only
      split_ifs <;> simp

lemma child_call_zero_or_bot (lib : Library) (children parents : List Nat)
    (parentB : Nat → Int) (r t : Nat) :
    ChildConstraint_call lib children parents parentB r t = 0
      ∨ ChildConstraint_call lib children parents parentB r t = ⊥ := by
  rw [ChildConstraint_call, child_fold_apply, zero_add]
  refine (sum_zero_or_bot _ ?_).1
  intro x hx
  rw [List.mem_map] at hx
  obtain ⟨cp, _, rfl⟩ := hx
  rw [make_constraint]
  split_ifs <;> simp

lemma mask_zero_or_bot (lib : Library) (c : ConstraintSpec) (alen : Nat)
    (parentB dangling : Nat → Int) (r t : Nat) :
    c.mask lib alen parentB dangling r t = 0
      ∨ c.mask lib alen parentB dangling r t = ⊥ := by
  cases c with
  | length mn mx => exact length_call_zero_or_bot lib mn mx alen dangling r t
  | child ch pa => exact child_call_zero_or_bot lib ch pa parentB r t
  | inverseUnary => exact child_call_zero_or_bot lib _ _ parentB r t
  | descendant d a => exact Or.inl rfl
  | rep tk mn mx => exact Or.inl rfl

lemma initial_zero_or_bot (lib : Library) (c : ConstraintSpec) (t : Nat) :
    c.initial lib t = 0 ∨ c.initial lib t = ⊥ := by
  cases c with
  | length mn mx =>
    rw [ConstraintSpec.initial, LengthConstraint_initial]
    split_ifs <;> simp [Prior_initial_prior]
  | child ch pa => exact Or.inl rfl
  | inverseUnary => exact Or.inl rfl
  | descendant d a => exact Or.inl rfl
  | rep tk mn mx => exact Or.inl rfl

/-- C5: every cell of every constraint step mask, of every constraint
initial mask, and of the `JointPrior`'s summed masks is exactly `0` or
`-inf`, and the `{0, -inf}` value set is closed under the elementwise
addition used to combine constraints. -/
theorem C5_mask_value_set (lib : Library) (c : ConstraintSpec)
    (cs : List ConstraintSpec) (alen : Nat) (parentB dangling : Nat → Int)
    (r t : Nat) :
    (∀ m, c.eval lib alen parentB dangling = Except.ok m →
      m r t = 0 ∨ m r t = ⊥)
    ∧ (c.initial lib t = 0 ∨ c.initial lib t = ⊥)
    ∧ (∀ m, JointPrior_call lib cs alen parentB dangling = Except.ok m →
      m r t = 0 ∨ m r t = ⊥)
    ∧ (JointPrior_initial lib cs t = 0 ∨ JointPrior_initial lib cs t = ⊥)
    ∧ (∀ a b : WithBot ℤ, a = 0 ∨ a = ⊥ → b = 0 ∨ b = ⊥ →
        (a + b = 0 ∨ a + b = ⊥)) := by
  refine ⟨?_, initial_zero_or_bot lib c t, ?_, ?_, add_zero_or_bot⟩
  · intro m hm
    rw [eval_eq_raises] at hm
    split_ifs at hm
    rw [Except.ok.injEq] at hm
    rw [← hm]
    exact mask_zero_or_bot lib c alen parentB dangling r t
  · intro m hm
    rw [jointPrior_call_eq] at hm
    split_ifs at hm
    rw [Except.ok.injEq] at hm
    rw [← hm]
    apply add_zero_or_bot _ _ _ (Or.inl rfl)
    refine (sum_zero_or_bot _ ?_).1
    intro x hx
    rw [List.mem_map] at hx
    obtain ⟨mk, hmk, rfl⟩ := hx
    rw [List.mem_map] at hmk
    obtain ⟨c', _, rfl⟩ := hmk
    exact mask_zero_or_bot lib c' alen parentB dangling r t
  · rw [JointPrior_initial]
    refine (sum_zero_or_bot _ ?_).1
    intro x hx
    rw [List.mem_map] at hx
    obtain ⟨c', _, rfl⟩ := hx
    exact initial_zero_or_bot lib c' t

/-- C5 witness: the `LengthConstraint(min=4)` step mask cell at row 0,
token 0 of `scenarioLib` is `0` or `-inf`. -/
theorem C5_mask_value_set_witness :
    LengthConstraint_call scenarioLib (some 4) none 1 (fun _ => 1) 0 0 = 0
      ∨ LengthConstraint_call scenarioLib (some 4) none 1 (fun _ => 1) 0 0 = ⊥ :=
  (C5_mask_value_set scenarioLib (ConstraintSpec.length (some 4) none) [] 1
    (fun _ => 0) (fun _ => 1) 0 0).1
    (LengthConstraint_call scenarioLib (some 4) none 1 (fun _ => 1)) rfl

/-- C9: every invocation of `RepeatConstraint.__call__` and of
`DescendantConstraint.__call__` raises `NotImplementedError` (the spec's
`NotSupportedError`), and never returns any mask, in particular not a
silent all-zero one. -/
theorem C9_repeat_descendant_raise (lib : Library)
    (tokens descendants ancestors : List Nat) (min_ max_ : Option Nat)
    (alen : Nat) (parentB dangling : Nat → Int) :
    ConstraintSpec.eval lib (.rep tokens min_ max_) alen parentB dangling
      = Except.error .notImplemented
    ∧ ConstraintSpec.eval lib (.descendant descendants ancestors) alen
        parentB dangling = Except.error .notImplemented
    ∧ (∀ m : Nat → Nat → WithBot ℤ,
      ConstraintSpec.eval lib (.rep tokens min_ max_) alen parentB dangling
        ≠ Except.ok m
      ∧ ConstraintSpec.eval lib (.descendant descendants ancestors) alen
          parentB dangling ≠ Except.ok m) :=
  ⟨rfl, rfl, fun m => ⟨by simp [ConstraintSpec.eval], by simp [ConstraintSpec.eval]⟩⟩

lemma joint_initial_eq (lib : Library) (cs : List ConstraintSpec) (t : Nat) :
    JointPrior_initial lib cs t
      = if cs.any ConstraintSpec.isLength && lib.terminal_tokens.contains t
        then ⊥ else 0 := by
  induction cs with
  | nil => simp [JointPrior_initial]
  | cons c cs ih =>
    have hc : c.initial lib t
        = if c.isLength && lib.terminal_tokens.contains t then ⊥ else 0 := by
      cases c with
      | length mn mx =>
        rw [ConstraintSpec.initial, LengthConstraint_initial]
        simp [ConstraintSpec.isLength, Prior_initial_prior]
      | child ch pa =>
        simp [ConstraintSpec.initial, ConstraintSpec.isLength,
          Prior_initial_prior]
      | inverseUnary =>
        simp [ConstraintSpec.initial, ConstraintSpec.isLength,
          Prior_initial_prior]
      | descendant d a =>
        simp [ConstraintSpec.initial, ConstraintSpec.isLength,
          Prior_initial_prior]
      | rep tk mn mx =>
        simp [ConstraintSpec.initial, ConstraintSpec.isLength,
          Prior_initial_prior]
    have ih' : (cs.map (fun c => c.initial lib t)).sum
        = if cs.any ConstraintSpec.isLength && lib.terminal_tokens.contains t
          then ⊥ else 0 := ih
    simp only [JointPrior_initial, List.map_cons, List.sum_cons]
    rw [hc, ih', List.any_cons]
    cases h1 : c.isLength <;> cases h2 : cs.any ConstraintSpec.isLength <;>
      cases h3 : lib.terminal_tokens.contains t <;>
      simp [WithBot.bot_add, WithBot.add_bot]

/-- C10: every constraint class except `LengthConstraint` inherits the
all-zeros base `initial_prior`; the `JointPrior` initial mask is all-zero
when no `LengthConstraint` is registered, and with one present it is
`-inf` exactly at the terminal-token indices and `0` elsewhere. -/
theorem C10_initial_masks (lib : Library)
    (children parents descendants ancestors tokens : List Nat)
    (mn mx : Option Nat) (cs : List ConstraintSpec) (t : Nat) :
    ConstraintSpec.initial lib (.child children parents) t
      = Prior_initial_prior lib t
    ∧ ConstraintSpec.initial lib .inverseUnary t = Prior_initial_prior lib t
    ∧ ConstraintSpec.initial lib (.descendant descendants ancestors) t
      = Prior_initial_prior lib t
    ∧ ConstraintSpec.initial lib (.rep tokens mn mx) t
      = Prior_initial_prior lib t
    ∧ Prior_initial_prior lib t = 0
    ∧ (cs.all (fun c => !c.isLength) = true →
        JointPrior_initial lib cs t = 0)
    ∧ (cs.any ConstraintSpec.isLength = true →
        JointPrior_initial lib cs t
          = if t ∈ lib.terminal_tokens then ⊥ else 0) := by
  refine ⟨rfl, rfl, rfl, rfl, rfl, ?_, ?_⟩
  · intro hall
    rw [joint_initial_eq]
    have hno : cs.any ConstraintSpec.isLength = false := by
      rw [Bool.eq_false_iff]
      intro hc
      obtain ⟨x, hx, hpx⟩ := List.any_eq_true.mp hc
      have hax := List.all_eq_true.mp hall x hx
      simp [hpx] at hax
    rw [hno, Bool.false_and]
    simp
  · intro hany
    rw [joint_initial_eq, hany, Bool.true_and]
    by_cases hmem : t ∈ lib.terminal_tokens
    · rw [if_pos ((contains_iff_mem _ _).2 hmem), if_pos hmem]
    · rw [if_neg (fun hc => hmem ((contains_iff_mem _ _).1 hc)),
        if_neg hmem]

/-- C10 witness: with a `LengthConstraint` registered, the `JointPrior`
initial mask of `scenarioLib` at the terminal token `const` (id 0)
matches the terminal-indicator form. -/
theorem C10_initial_masks_witness :
    JointPrior_initial scenarioLib [ConstraintSpec.length (some 4) none] 0
      = if 0 ∈ scenarioLib.terminal_tokens then ⊥ else 0 :=
  (C10_initial_masks scenarioLib [] [] [] [] [] none none
    [ConstraintSpec.length (some 4) none] 0).2.2.2.2.2.2 rfl

lemma spec_shift (flag : Bool) (d : Int) (name : String) (rest : List String) :
    (∃ k, ∃ h : k < (name :: rest).length,
      ((((name :: rest).take k).foldl trig_step (flag, d)).1 = true
        ∧ (name :: rest).get ⟨k, h⟩ ∈ TRIG_TOKENS))
    ↔ ((flag = true ∧ name ∈ TRIG_TOKENS)
        ∨ (∃ k, ∃ h : k < rest.length,
          (((rest.take k).foldl trig_step (trig_step (flag, d) name)).1 = true
            ∧ rest.get ⟨k, h⟩ ∈ TRIG_TOKENS))) := by
  constructor
  · rintro ⟨k, hk, hflag, hmem⟩
    cases k with
    | zero => exact Or.inl ⟨hflag, hmem⟩
    | succ j =>
      refine Or.inr ⟨j, by simp only [List.length_cons] at hk; omega, ?_, ?_⟩
      · exact hflag
      · exact hmem
  · rintro (⟨hflag, hmem⟩ | ⟨j, hj, hflag, hmem⟩)
    · exact ⟨0, by simp, hflag, hmem⟩
    · exact ⟨j + 1, by simp only [List.length_cons]; omega, hflag, hmem⟩

lemma check_trig_aux_step (flag : Bool) (d : Int) (name : String)
    (rest : List String) (htrig : name ∉ TRIG_TOKENS) :
    check_trig_aux flag d (name :: rest)
      = check_trig_aux (trig_step (flag, d) name).1
          (trig_step (flag, d) name).2 rest := by
  cases flag with
  | false => simp [check_trig_aux, trig_step, htrig]
  | true =>
    simp only [check_trig_aux, trig_step, if_neg htrig]
    by_cases hD : (if name ∈ BINARY_TOKENS then d + 1
        else if name ∈ UNARY_TOKENS then d else d - 1) = 0
    · simp [hD]
    · simp [hD]

lemma check_trig_aux_iff (names : List String) : ∀ (flag : Bool) (d : Int),
    check_trig_aux flag d names = true
      ↔ ∃ k, ∃ h : k < names.length,
          (((names.take k).foldl trig_step (flag, d)).1 = true
            ∧ names.get ⟨k, h⟩ ∈ TRIG_TOKENS) := by
  induction names with
  | nil => intro flag d; simp [check_trig_aux]
  | cons name rest ih =>
    intro flag d
    rw [spec_shift]
    by_cases htrig : name ∈ TRIG_TOKENS
    · have hstep : trig_step (flag, d) name = (true, 1) := by
        simp only [trig_step, if_pos htrig]
      cases flag with
      | true =>
        constructor
        · intro _
          exact Or.inl ⟨rfl, htrig⟩
        · intro _
          simp [check_trig_aux, htrig]
      | false =>
        have hlhs : check_trig_aux false d (name :: rest)
            = check_trig_aux true 1 rest := by
          simp [check_trig_aux, htrig]
        rw [hlhs, hstep, ih true 1]
        simp
    · rw [check_trig_aux_step flag d name rest htrig,
        ih (trig_step (flag, d) name).1 (trig_step (flag, d) name).2]
      simp [htrig]

/-- C6: `check_trig` returns true exactly when a trigonometric token
appears while a previous trigonometric token's subtree is still open, with
openness tracked by the spec's counter process (`trig_step`); in
particular `["sin","cos","x1"]` is a violation and `["sin","x1"]` is not. -/
theorem C6_check_trig_characterisation :
    (∀ names : List String,
      check_trig names = true ↔ spec_trig_violation names)
    ∧ check_trig ["sin", "cos", "x1"] = true
    ∧ check_trig ["sin", "x1"] = false := by
  refine ⟨?_, by decide, by decide⟩
  intro names
  rw [check_trig, spec_trig_violation]
  exact check_trig_aux_iff names false 1

lemma getD_mem_of_lt {α : Type} (l : List α) (n : Nat) (d : α)
    (h : n < l.length) : l.getD n d ∈ l := by
  induction l generalizing n with
  | nil => simp at h
  | cons a l ih =>
    cases n with
    | zero => exact List.mem_cons_self a l
    | succ j =>
      exact List.mem_cons_of_mem a
        (ih j (by simp only [List.length_cons] at h; omega))

lemma replace_invalid_mem (max_length min_length max_depth : Nat)
    (keep : List Individual) (choice : Nat → Nat)
    (hchoice : ∀ i, choice i < keep.length) :
    ∀ (i0 : Nat) (l : List Individual) (ind : Individual),
      ind ∈ replace_invalid max_length min_length max_depth keep choice i0 l →
      is_valid max_length min_length max_depth ind = true ∨ ind ∈ keep := by
  intro i0 l
  induction l generalizing i0 with
  | nil => intro ind h; simp [replace_invalid] at h
  | cons a l ih =>
    intro ind h
    rw [replace_invalid] at h
    rcases List.mem_cons.mp h with heq | htail
    · by_cases hv : is_valid max_length min_length max_depth a = true
      · rw [if_pos hv] at heq
        exact Or.inl (heq ▸ hv)
      · rw [if_neg hv] at heq
        exact Or.inr (heq ▸ getD_mem_of_lt keep (choice i0) _ (hchoice i0))
    · exact ih (i0 + 1) ind htail

/-- C7: every individual returned by the `checkConstraint`-wrapped
operator either passes all five validity checks or is one of the kept
copies of the operator's inputs; an invalid candidate is never returned
and never re-mutated. -/
theorem C7_checkConstraint_valid_or_kept (max_length min_length max_depth : Nat)
    (choice : Nat → Nat) (func : List Individual → List Individual)
    (args : List Individual) (hchoice : ∀ i, choice i < args.length) :
    ∀ ind ∈ checkConstraint max_length min_length max_depth choice func args,
      is_valid max_length min_length max_depth ind = true ∨ ind ∈ args := by
  intro ind hmem
  exact replace_invalid_mem max_length min_length max_depth args choice
    hchoice 0 (func args) ind hmem

/-- C7 witness: a mutation producing the invalid `["sin","cos","x1"]`
(nested trig) from the single input `["x1"]` yields only valid or kept
individuals. -/
theorem C7_checkConstraint_valid_or_kept_witness :
    is_valid 10 1 10 ⟨["x1"], 0⟩ = true
      ∨ (⟨["x1"], 0⟩ : Individual) ∈ [(⟨["x1"], 0⟩ : Individual)] :=
  C7_checkConstraint_valid_or_kept 10 1 10 (fun _ => 0)
    (fun _ => [⟨["sin", "cos", "x1"], 2⟩]) [⟨["x1"], 0⟩]
    (fun _ => Nat.one_pos) ⟨["x1"], 0⟩ (by decide)

/-- C8: the assert in `ChildConstraint.__init__` evaluates the truthiness
of the list `[p.arity > 0 for p in parents]`, which is `True` for every
non-empty `parents` list; so construction with the terminal token `const`
(id 0, arity 0) of `scenarioLib` as parent passes the assert instead of
failing. -/
theorem C8_terminal_parent_assert_passes :
    scenarioLib.arity 0 = 0
    ∧ ChildConstraint_init_assert scenarioLib [0] = true
    ∧ all_parents_nonterminal scenarioLib [0] = false
    ∧ (∀ (lib : Library) (parents : List Nat),
        ChildConstraint_init_assert lib parents = !parents.isEmpty) := by
  refine ⟨rfl, by decide, by decide, ?_⟩
  intro lib parents
  cases parents <;> simp [ChildConstraint_init_assert]

end DSR
